import Mathlib

/-!
Shallow embedding of the document-processing pipeline:
  - `comprehend-lambda.py` (PII overlap classifier, offset reconstruction,
    key-phrase/entity enrichment, per-pool orchestration), and
  - `textract-lambda.py` (confidence filter, block-graph child resolution,
    table grid resolution, form key/value resolution, per-block recovery).
Python strings are modelled as `List Char`; Python dicts keyed by integers or
strings are modelled as association lists with replace-in-place update, which
preserves the source's key-insertion-order and last-write-wins semantics.
Fallible Python operations (`str.index`, `list[0]`, `dict[k]`) are modelled
with `Option` / `Except`.
-/

/-- Python whitespace characters relevant to `str.strip()` / truthiness of
stripped strings. -/
def isSpaceChar (c : Char) : Bool :=
  c = ' ' || c = '\t' || c = '\n' || c = '\r' || c = '\x0b' || c = '\x0c'

/-- `text.strip()` is empty, i.e. the Python condition `not text.strip()`. -/
def isBlank (l : List Char) : Bool :=
  l.all isSpaceChar

/-- Python `str.strip()`: drop leading and trailing whitespace. -/
def pyStrip (l : List Char) : List Char :=
  ((l.dropWhile isSpaceChar).reverse.dropWhile isSpaceChar).reverse

/-- Python `' '.join(xs)`. -/
def joinSpace : List (List Char) → List Char
  | [] => []
  | [t] => t
  | t :: ts => t ++ ' ' :: joinSpace ts

/-- `sub` occurs in `blob` at position `p` (prefix of the tail starting at `p`).
For positions `p ≤ blob.length` this is exactly Python's substring-match test
used by `str.index`/`str.find`. -/
def occursAt (blob sub : List Char) (p : Nat) : Bool :=
  sub.isPrefixOf (blob.drop p)

/-- Bounded scan underlying `str.find(sub, start)`: try positions
`p, p+1, ...` for `fuel` steps, returning the first match. -/
def strIndexGo (blob sub : List Char) : Nat → Nat → Option Nat
  | 0, _ => none
  | fuel + 1, p => if occursAt blob sub p then some p else strIndexGo blob sub fuel (p + 1)

/-- Python `blob.index(sub, start)` (as an `Option`: `none` models the
`ValueError` raised when the substring is not found at or after `start`).
Matches CPython: candidate positions are `start ≤ p ≤ len(blob)`. -/
def strIndexFrom (blob sub : List Char) (start : Nat) : Option Nat :=
  if start ≤ blob.length then strIndexGo blob sub (blob.length + 1 - start) start else none

/-- Offset-reconstruction cursor loop of `comprehend-lambda.py`
(lines 89-100 / 117-127, the `current_offset` logic): for each annotation
text in order, `blob.index(text, cursor)` on success records the position and
advances the cursor past the match; on `ValueError` it records the cursor and
does not advance. -/
def reconstructAux (blob : List Char) : List (List Char) → Nat → List Nat
  | [], _ => []
  | t :: ts, cursor =>
    match strIndexFrom blob t cursor with
    | some p => p :: reconstructAux blob ts (p + t.length)
    | none => cursor :: reconstructAux blob ts cursor

/-- Reconstructed begin offsets for an ordered list of annotation texts over a
blob, cursor starting at 0. -/
def reconstructOffsets (blob : List Char) (anns : List (List Char)) : List Nat :=
  reconstructAux blob anns 0

/-- `is_pii` from `comprehend-lambda.py` lines 40-46: the candidate span is
`[start_offset, start_offset + len(text))`; it is flagged iff some PII span
`(begin, end)` satisfies one of the three half-open overlap clauses. -/
def is_pii (text : List Char) (piiOffsets : List (Nat × Nat)) (startOffset : Nat) : Bool :=
  let tStart := startOffset
  let tEnd := startOffset + text.length
  piiOffsets.any fun be =>
    (be.1 ≤ tStart && tStart < be.2) || (be.1 < tEnd && tEnd ≤ be.2) ||
      (tStart ≤ be.1 && be.1 < tEnd)

/-- One key phrase as returned by the external key-phrase detector
(`KeyPhrases` entries: `Text`, `Score`, `BeginOffset`). Scores are opaque
pass-through values; the code never computes with them, so they are modelled
as rationals. -/
structure KeyPhraseR where
  text : List Char
  score : ℚ
  beginOffset : Nat
deriving DecidableEq

/-- One emitted phrase of the `TopPhrases` output list. -/
structure OutPhrase where
  phrase : List Char
  score : ℚ
  redacted : Bool
deriving DecidableEq

/-- `comprehend-lambda.py` lines 68-77: the emitted `TopPhrases` list — the
first 10 detector phrases, each flagged via `is_pii` at the phrase's
detector-reported `BeginOffset`. -/
def topPhrasesOut (pii : List (Nat × Nat)) (kps : List KeyPhraseR) : List OutPhrase :=
  (kps.take 10).map fun ph => ⟨ph.text, ph.score, is_pii ph.text pii ph.beginOffset⟩

/-- One entity as returned by the external entity detector
(`Entities` entries: `Text`, `Score`, `Type`). -/
structure EntityR where
  text : List Char
  score : ℚ
  typ : String
deriving DecidableEq

/-- One emitted entity annotation (`Text`, `Score`, `Redacted`). -/
structure OutAnn where
  text : List Char
  score : ℚ
  redacted : Bool
deriving DecidableEq

/-- Groups of annotations keyed by entity type, in key-insertion order
(Python dict of lists). -/
abbrev Groups := List (String × List OutAnn)

/-- Python `entity_groups[t].append(v)` preceded by
`if t not in entity_groups: entity_groups[t] = []`. -/
def groupAppend (typ : String) (v : OutAnn) : Groups → Groups
  | [] => [(typ, [v])]
  | (t, vs) :: rest =>
    if t = typ then (t, vs ++ [v]) :: rest else (t, vs) :: groupAppend typ v rest

/-- Entity loop of `comprehend-lambda.py` lines 88-106 (and identically
117-133): group entities by type while reconstructing offsets with the
monotonic cursor, flagging each via `is_pii` at the reconstructed offset. -/
def entityLoop (blob : List Char) (pii : List (Nat × Nat)) :
    List EntityR → Nat → Groups → Groups
  | [], _, g => g
  | e :: es, cursor, g =>
    match strIndexFrom blob e.text cursor with
    | some p =>
        entityLoop blob pii es (p + e.text.length)
          (groupAppend e.typ ⟨e.text, e.score, is_pii e.text pii p⟩ g)
    | none =>
        entityLoop blob pii es cursor
          (groupAppend e.typ ⟨e.text, e.score, is_pii e.text pii cursor⟩ g)

/-- The same grouping loop but consuming a precomputed list of begin offsets,
used to state that `entityLoop` flags each entity at exactly the offsets of
`reconstructOffsets`. -/
def entityLoopGiven (pii : List (Nat × Nat)) :
    List EntityR → List Nat → Groups → Groups
  | [], _, g => g
  | e :: es, off :: offs, g =>
      entityLoopGiven pii es offs
        (groupAppend e.typ ⟨e.text, e.score, is_pii e.text pii off⟩ g)
  | e :: es, [], g =>
      entityLoopGiven pii es []
        (groupAppend e.typ ⟨e.text, e.score, is_pii e.text pii 0⟩ g)

/-- Sentiment response of the external capability (`Sentiment`,
`SentimentScore`), passed through unchanged by the handler. -/
structure SentimentR where
  label : String
  scores : List (String × ℚ)
deriving DecidableEq

/-- The Text Insight Provider: the four external calls made by
`comprehend-lambda.py`, each fallible. `detect_pii_entities` corresponds to
the call inside the local `detect_pii` wrapper (lines 32-37), which passes its
argument through as `Text=text` unchanged. -/
structure Providers where
  detect_pii_entities : List Char → Except String (List (Nat × Nat))
  detect_sentiment : List Char → Except String SentimentR
  detect_key_phrases : List Char → Except String (List KeyPhraseR)
  detect_entities : List Char → Except String (List EntityR)

/-- The `textract_results` input consumed by the enrichment handler:
`text` is a list of line strings, `forms` a dict of key/value strings in
insertion order, `tables` a list of tables, each a list of rows of cell
strings. -/
structure TextractResults where
  text : List (List Char)
  forms : List (List Char × List Char)
  tables : List (List (List (List Char)))

/-- Document-pool text: `' '.join(textract_results['text'])` (line 49). -/
def docText (res : TextractResults) : List Char :=
  joinSpace res.text

/-- Forms-pool text: `' '.join(f"{key}: {value}" for ...)` (line 81). -/
def formsTextOf (res : TextractResults) : List Char :=
  joinSpace (res.forms.map fun kv => kv.1 ++ ':' :: ' ' :: kv.2)

/-- One table's pool text: `' '.join(' '.join(row) for row in table['rows'])`
(line 110). -/
def tableTextOf (rows : List (List (List Char))) : List Char :=
  joinSpace (rows.map joinSpace)

/-- Sentiment entry of the insights output for the document pool. -/
structure DocSentiment where
  sentiment : String
  scores : List (String × ℚ)
deriving DecidableEq

/-- The assembled `insights` value: `sentiment['full_document']` and
`key_phrases['full_document']` entries are present iff the document pool is
non-blank; `entities` maps pool names (`"forms"`, `"table_0"`, ...) to entity
groups in insertion order. -/
structure Insights where
  sentiment : Option DocSentiment
  key_phrases : Option (List OutPhrase)
  entities : List (String × Groups)
deriving DecidableEq

/-- Python `f"table_{idx}"`. -/
def tableKey (idx : Nat) : String :=
  "table_" ++ toString idx

/-- Table loop of `comprehend-lambda.py` lines 108-133: for each table in
order (index incremented for every table, including skipped blank ones),
a non-blank pool gets a PII call on the untruncated pool text and an entity
call on the pool text truncated to 5000, and contributes an
`entities[f"table_{idx}"]` group. -/
def tablesLoop (c : Providers) : List (List (List (List Char))) → Nat →
    Except String (List (String × Groups))
  | [], _ => .ok []
  | rows :: rest, idx =>
    let t := tableTextOf rows
    if isBlank t then tablesLoop c rest (idx + 1)
    else do
      let pii ← c.detect_pii_entities t
      let ents ← c.detect_entities (t.take 5000)
      let restG ← tablesLoop c rest (idx + 1)
      .ok ((tableKey idx, entityLoop t pii ents 0 []) :: restG)

/-- Body of `lambda_handler` in `comprehend-lambda.py` (lines 24-140, after
event parsing): process the document pool (PII on untruncated text, then
sentiment and key phrases on the first 5000 characters), then the forms pool,
then each table pool; any failing external call aborts the whole body. -/
def handlerBody (c : Providers) (res : TextractResults) : Except String Insights := do
  let fullText := docText res
  let docPart ←
    (if isBlank fullText then Except.ok (none, none)
     else do
       let pii ← c.detect_pii_entities fullText
       let sent ← c.detect_sentiment (fullText.take 5000)
       let kps ← c.detect_key_phrases (fullText.take 5000)
       Except.ok (some (⟨sent.label, sent.scores⟩ : DocSentiment), some (topPhrasesOut pii kps)))
  let formsText := formsTextOf res
  let formsPart ←
    (if isBlank formsText then Except.ok []
     else do
       let pii ← c.detect_pii_entities formsText
       let ents ← c.detect_entities (formsText.take 5000)
       Except.ok [("forms", entityLoop formsText pii ents 0 [])])
  let tablesPart ← tablesLoop c res.tables 0
  Except.ok ⟨docPart.1, docPart.2, formsPart ++ tablesPart⟩

/-- Successful handler return value (lines 136-140). -/
structure HandlerOk where
  statusCode : Nat
  textract_job_id : String
  insights : Insights
deriving DecidableEq

/-- The wrapped error re-raised by the outer `except` block (lines 142-147):
`Exception(json.dumps({'statusCode': 500, 'error': str(e)}))`. -/
structure WrappedError where
  statusCode : Nat
  error : String
deriving DecidableEq

/-- `lambda_handler` of `comprehend-lambda.py`: the whole body runs inside a
single `try`; any exception is wrapped with `statusCode` 500 and re-raised,
so no partial result is ever returned. -/
def comprehendHandler (c : Providers) (jobId : String) (res : TextractResults) :
    Except WrappedError HandlerOk :=
  match handlerBody c res with
  | .ok ins => .ok ⟨200, jobId, ins⟩
  | .error e => .error ⟨500, e⟩

/-- Which of the four external capabilities a call goes to. -/
inductive CallKind where
  | pii
  | sentiment
  | keyPhrases
  | entities
deriving DecidableEq

/-- One external call: the capability invoked, the pool the call is for, and
the exact `Text=` argument submitted. -/
structure ProviderCall where
  kind : CallKind
  pool : List Char
  arg : List Char
deriving DecidableEq

/-- Calls issued for the table pools, in order (lines 108-133). -/
def tableCallsOf : List (List (List (List Char))) → List ProviderCall
  | [] => []
  | rows :: rest =>
    let t := tableTextOf rows
    (if isBlank t then [] else [⟨.pii, t, t⟩, ⟨.entities, t, t.take 5000⟩]) ++ tableCallsOf rest

/-- The sequence of external calls `lambda_handler` issues on `res`, with the
exact `Text=` argument of each call site in source order:
`detect_pii(full_text)` (line 51) passes the pool text unsliced through the
wrapper of lines 32-37, `detect_sentiment`/`detect_key_phrases` slice
`full_text[:5000]` (lines 55, 65), `detect_pii(forms_text)` (line 83) is
unsliced, `detect_entities` slices `forms_text[:5000]` (line 85), and each
table pool likewise gets an unsliced PII call (line 112) and a sliced entity
call (line 114). -/
def callsMade (res : TextractResults) : List ProviderCall :=
  let fullText := docText res
  let formsText := formsTextOf res
  (if isBlank fullText then []
   else [⟨.pii, fullText, fullText⟩, ⟨.sentiment, fullText, fullText.take 5000⟩,
         ⟨.keyPhrases, fullText, fullText.take 5000⟩]) ++
  (if isBlank formsText then []
   else [⟨.pii, formsText, formsText⟩, ⟨.entities, formsText, formsText.take 5000⟩]) ++
  tableCallsOf res.tables

/-- One relationship entry of a block: `{'Type': ..., 'Ids': [...]}`. -/
structure BlockRel where
  relType : String
  ids : List Nat
deriving DecidableEq

/-- One annotated block of the document-analysis response. Optional fields
model keys that may be absent from the Python dict; `Id` and `Relationships`
are always consulted through total accessors in the source (`.get` with a
default), so they are modelled as total. -/
structure Block where
  id : Nat
  blockType : Option String
  text : Option (List Char)
  confidence : Option ℚ
  rowIndex : Option Nat
  colIndex : Option Nat
  entityTypes : Option (List String)
  relationships : List BlockRel
deriving DecidableEq

/-- Confidence predicate of `textract-lambda.py` line 88:
`'Confidence' not in block or block['Confidence'] >= 80`. -/
def keepBlock (b : Block) : Bool :=
  match b.confidence with
  | none => true
  | some c => 80 ≤ c

/-- The confidence filter (line 88): keep a block iff its confidence is
absent or at least 80, preserving order. -/
def confidenceFilter (blocks : List Block) : List Block :=
  blocks.filter keepBlock

/-- `get_child_blocks` (lines 91-101): take the `Ids` of the first CHILD
relationship (first one wins) and return the blocks of the given list whose
id is among them; empty when there is no CHILD relationship. The inner
`try/except` of the source cannot fire in this typed model because every
field it touches is total here. -/
def get_child_blocks (block : Block) (blocks : List Block) : List Block :=
  match (block.relationships.filter fun r => r.relType = "CHILD").map BlockRel.ids with
  | [] => []
  | cids :: _ => blocks.filter fun b => b.id ∈ cids

/-- Joined child text: `' '.join([child.get('Text', '') for child in ...])`
(lines 121, 137, 143) — every child contributes, a missing `Text` as the
empty string, and the result is NOT stripped before storing. -/
def childText (filtered : List Block) (b : Block) : List Char :=
  joinSpace ((get_child_blocks b filtered).map fun c => c.text.getD [])

/-- `cell.get('RowIndex', 0)`. -/
def rowIdx (b : Block) : Nat := b.rowIndex.getD 0

/-- `cell.get('ColumnIndex', 0)`. -/
def colIdx (b : Block) : Nat := b.colIndex.getD 0

/-- Python dict assignment `d[k] = v` on an association list: replace in
place if the key exists (keeping its position), else append at the end. -/
def dictSet {α : Type} (k : Nat) (v : α) : List (Nat × α) → List (Nat × α)
  | [] => [(k, v)]
  | (k', v') :: rest => if k' = k then (k, v) :: rest else (k', v') :: dictSet k v rest

/-- Python dict lookup `d.get(k)` on an association list. -/
def dictGet? {α : Type} (k : Nat) (d : List (Nat × α)) : Option α :=
  (d.find? fun p => p.1 = k).map Prod.snd

/-- `d.keys()` in insertion order. -/
def dictKeys {α : Type} (d : List (Nat × α)) : List Nat :=
  d.map Prod.fst

/-- Python `sorted` on a list of keys. -/
def sortNat (l : List Nat) : List Nat :=
  List.insertionSort (· ≤ ·) l

/-- One iteration of the `row_data` accumulation (lines 116-128): compute
the cell's joined child text; skip the cell when blank, otherwise store the
text at `row_data[row_index][col_index]` (creating the inner dict when
absent, as `if row_index not in row_data` does). -/
def buildStep (filtered : List Block) (rd : List (Nat × List (Nat × List Char)))
    (cell : Block) : List (Nat × List (Nat × List Char)) :=
  if isBlank (childText filtered cell) then rd
  else
    dictSet (rowIdx cell)
      (dictSet (colIdx cell) (childText filtered cell) ((dictGet? (rowIdx cell) rd).getD []))
      rd

/-- The `row_data` accumulation of lines 115-128 over all cells of the
table, in child order. -/
def buildRowData (filtered : List Block) (cells : List Block) :
    List (Nat × List (Nat × List Char)) :=
  cells.foldl (buildStep filtered) []

/-- Lines 129-130: emit rows for the sorted row indices, each row the values
at its own sorted column indices. -/
def tableRows (filtered : List Block) (block : Block) : List (List (List Char)) :=
  let cells := get_child_blocks block filtered
  let rd := buildRowData filtered cells
  (sortNat (dictKeys rd)).map fun r =>
    let inner := (dictGet? r rd).getD []
    (sortNat (dictKeys inner)).map fun c => (dictGet? c inner).getD []

/-- First ids of the VALUE relationships: `[rel['Ids'][0] for rel in ... if
rel['Type'] == 'VALUE']` (line 139); `none` models the `IndexError` raised
when some VALUE relationship has an empty `Ids` list. -/
def headsOf : List BlockRel → Option (List Nat)
  | [] => some []
  | r :: rs =>
    match r.ids with
    | [] => none
    | i :: _ =>
      match headsOf rs with
      | none => none
      | some l => some (i :: l)

/-- The fallible `value_block_ids` computation for a KEY block. -/
def valueIds? (block : Block) : Option (List Nat) :=
  headsOf (block.relationships.filter fun r => r.relType = "VALUE")

/-- First ids of the VALUE relationships, skipping malformed empty-`Ids`
relationships; agrees with `valueIds?` when each VALUE relationship has at
least one target id. -/
def valueTargets (block : Block) : List Nat :=
  (block.relationships.filter fun r => r.relType = "VALUE").filterMap fun r => r.ids.head?

/-- What one block contributes to the extracted data: lines to append,
tables to append, form key/value pairs to write. In the source the only
fallible operations of a block's `try` body (`block['BlockType']` and
`rel['Ids'][0]`) happen before any write to `extracted_data`, so a block's
effect is atomic and can be computed up front. -/
structure Contribution where
  lineAdds : List (List Char) := []
  tableAdds : List (List (List (List Char))) := []
  formAdds : List (List Char × List Char) := []
deriving DecidableEq

/-- The `try` body of the per-block loop (lines 105-150), as a fallible
computation of the block's contribution: LINE appends its text when present;
TABLE appends its resolved grid when it has at least one row; a
KEY_VALUE_SET KEY block with non-blank joined key text writes one pair for
every filtered block whose id is a VALUE target and whose joined text is
non-blank. `Except.error` models an uncaught exception inside the body. -/
def processBlockE (filtered : List Block) (block : Block) : Except Unit Contribution :=
  match block.blockType with
  | none => .error ()
  | some bt =>
    if bt = "LINE" then
      match block.text with
      | some t => .ok { lineAdds := [t] }
      | none => .ok {}
    else if bt = "TABLE" then
      .ok { tableAdds :=
              if tableRows filtered block = [] then [] else [tableRows filtered block] }
    else if bt = "KEY_VALUE_SET" then
      match block.entityTypes with
      | none => .ok {}
      | some ets =>
        if "KEY" ∈ ets then
          let keyText := childText filtered block
          if isBlank keyText then .ok {}
          else
            match valueIds? block with
            | none => .error ()
            | some vids =>
              .ok { formAdds :=
                      filtered.filterMap fun vb =>
                        if vb.id ∈ vids then
                          if isBlank (childText filtered vb) then none
                          else some (keyText, childText filtered vb)
                        else none }
        else .ok {}
    else .ok {}

/-- Python dict assignment for string-keyed dicts (the `forms` output). -/
def dictSetL (k v : List Char) : List (List Char × List Char) → List (List Char × List Char)
  | [] => [(k, v)]
  | (k', v') :: rest => if k' = k then (k, v) :: rest else (k', v') :: dictSetL k v rest

/-- The `extracted_data` accumulator (lines 81-85). -/
structure Extracted where
  text : List (List Char)
  tables : List (List (List (List Char)))
  forms : List (List Char × List Char)
deriving DecidableEq

/-- Apply one block's contribution to the accumulator. -/
def applyContribution (acc : Extracted) (c : Contribution) : Extracted :=
  ⟨acc.text ++ c.lineAdds, acc.tables ++ c.tableAdds,
   c.formAdds.foldl (fun f kv => dictSetL kv.1 kv.2 f) acc.forms⟩

/-- One iteration of the per-block loop including its `except ... continue`
(lines 151-153): a failing block leaves the accumulator unchanged. -/
def processStep (filtered : List Block) (acc : Extracted) (block : Block) : Extracted :=
  match processBlockE filtered block with
  | .ok c => applyContribution acc c
  | .error _ => acc

/-- `process_textract_response` (lines 80-155): confidence-filter the blocks,
then fold the recovering per-block step over the filtered list. Total by
construction — a block whose body raises is skipped. -/
def process_textract_response (blocks : List Block) : Extracted :=
  let filtered := confidenceFilter blocks
  filtered.foldl (processStep filtered) ⟨[], [], []⟩

/-- The cell text the spec claims: single-space join of the WORD children's
texts, trimmed. Modelled from the spec's words for comparison with the
source's `childText`, which joins ALL children and does not trim. -/
def specCellTextClaim (filtered : List Block) (cell : Block) : List Char :=
  pyStrip (joinSpace
    (((get_child_blocks cell filtered).filter fun c => c.blockType = some "WORD").map
      fun c => c.text.getD []))

/-- Surviving cells of a table: children whose joined child text is not
blank. -/
def survCells (filtered : List Block) (cells : List Block) : List Block :=
  cells.filter fun c => !(isBlank (childText filtered c))

/-- Spec-side description of the resolved grid, following the (amended)
claim's words: rows for the ascending sorted distinct row indices of the
surviving cells; within a row, values for the ascending sorted distinct
column indices present in that row; the value at a coordinate is the joined
child text of the last surviving cell there. -/
def specGrid (filtered : List Block) (block : Block) : List (List (List Char)) :=
  let surv := survCells filtered (get_child_blocks block filtered)
  (sortNat ((surv.map rowIdx).dedup)).map fun r =>
    let rowCells := surv.filter fun cell => rowIdx cell = r
    (sortNat ((rowCells.map colIdx).dedup)).map fun c =>
      (((rowCells.filter fun cell => colIdx cell = c).getLast?).map
        (childText filtered)).getD []

/-- Folding Python dict assignments over a list of key/value pairs, used to
characterize the inner (column) dict built for one row. -/
def innerFold (ps : List (Nat × List Char)) (d : List (Nat × List Char)) :
    List (Nat × List Char) :=
  ps.foldl (fun d p => dictSet p.1 p.2 d) d

/-- The (column index, cell text) pairs of the surviving cells of one row,
in cell order. -/
def rowPairs (filtered : List Block) (cells : List Block) (r : Nat) :
    List (Nat × List Char) :=
  ((survCells filtered cells).filter fun c => rowIdx c = r).map
    fun c => (colIdx c, childText filtered c)

/-! ### Concrete inputs used by witnesses and counterexamples -/

/-- A TABLE block with one CELL child. -/
def tblBlock : Block :=
  ⟨0, some "TABLE", none, none, none, none, none, [⟨"CHILD", [1]⟩]⟩

/-- A CELL at row 1, column 1, whose children are one WORD and one
SELECTION_ELEMENT (which has no text). -/
def tblCell : Block :=
  ⟨1, some "CELL", none, none, some 1, some 1, none, [⟨"CHILD", [2, 3]⟩]⟩

/-- A WORD child with text `"a"`. -/
def tblWord : Block :=
  ⟨2, some "WORD", some ['a'], none, none, none, none, []⟩

/-- A SELECTION_ELEMENT child without a `Text` key. -/
def tblSel : Block :=
  ⟨3, some "SELECTION_ELEMENT", none, none, none, none, none, []⟩

/-- The block list of the table counterexample. -/
def tblBlocks : List Block := [tblBlock, tblCell, tblWord, tblSel]

/-- A KEY_VALUE_SET KEY block with one WORD child and one VALUE target. -/
def kvKeyBlock : Block :=
  ⟨10, some "KEY_VALUE_SET", none, none, none, none, some ["KEY"],
    [⟨"CHILD", [11]⟩, ⟨"VALUE", [12]⟩]⟩

/-- The KEY block's WORD child with text `"N"`. -/
def kvKeyWord : Block :=
  ⟨11, some "WORD", some ['N'], none, none, none, none, []⟩

/-- The VALUE block, with one WORD child. -/
def kvValBlock : Block :=
  ⟨12, some "KEY_VALUE_SET", none, none, none, none, some ["VALUE"],
    [⟨"CHILD", [13]⟩]⟩

/-- The VALUE block's WORD child with text `"J"`. -/
def kvValWord : Block :=
  ⟨13, some "WORD", some ['J'], none, none, none, none, []⟩

/-- Filtered block list of the form-field witness. -/
def kvFiltered : List Block := [kvKeyBlock, kvKeyWord, kvValBlock, kvValWord]

/-- A WORD block used alongside the malformed block below. -/
def recWordBlock : Block :=
  ⟨31, some "WORD", some ['k'], none, none, none, none, []⟩

/-- A KEY block whose VALUE relationship has an empty id list: computing
`rel['Ids'][0]` for it raises, so its processing fails. -/
def recBadBlock : Block :=
  ⟨30, some "KEY_VALUE_SET", none, none, none, none, some ["KEY"],
    [⟨"CHILD", [31]⟩, ⟨"VALUE", []⟩]⟩

/-- Filtered block list of the per-block recovery witness. -/
def recFiltered : List Block := [recWordBlock, recBadBlock]

/-! ### Helper lemmas: substring search -/

theorem strIndexGo_eq_some {blob sub : List Char} :
    ∀ {fuel p q : Nat}, strIndexGo blob sub fuel p = some q →
      p ≤ q ∧ q < p + fuel ∧ occursAt blob sub q = true ∧
        ∀ r, p ≤ r → r < q → occursAt blob sub r = false := by
  intro fuel
  induction fuel with
  | zero => intro p q h; simp [strIndexGo] at h
  | succ n ih =>
    intro p q h
    by_cases hp : occursAt blob sub p = true
    · simp [strIndexGo, hp] at h
      subst h
      exact ⟨le_refl _, by omega, hp, fun r h1 h2 => absurd (h1.trans_lt h2) (lt_irrefl _)⟩
    · simp [strIndexGo, hp] at h
      obtain ⟨h1, h2, h3, h4⟩ := ih h
      refine ⟨by omega, by omega, h3, fun r hr1 hr2 => ?_⟩
      rcases Nat.eq_or_lt_of_le hr1 with he | hl
      · subst he; simpa using hp
      · exact h4 r hl hr2

theorem strIndexGo_eq_none {blob sub : List Char} :
    ∀ {fuel p : Nat}, strIndexGo blob sub fuel p = none →
      ∀ r, p ≤ r → r < p + fuel → occursAt blob sub r = false := by
  intro fuel
  induction fuel with
  | zero => intro p _ r h1 h2; omega
  | succ n ih =>
    intro p h r h1 h2
    by_cases hp : occursAt blob sub p = true
    · simp [strIndexGo, hp] at h
    · simp [strIndexGo, hp] at h
      rcases Nat.eq_or_lt_of_le h1 with he | hl
      · subst he; simpa using hp
      · exact ih h r hl (by omega)

/-! ### Helper lemma: the entity loop flags at reconstructed offsets -/

theorem entityLoop_eq_given (blob : List Char) (pii : List (Nat × Nat)) :
    ∀ (es : List EntityR) (cursor : Nat) (g : Groups),
      entityLoop blob pii es cursor g =
        entityLoopGiven pii es (reconstructAux blob (es.map EntityR.text) cursor) g := by
  intro es
  induction es with
  | nil => intro cursor g; rfl
  | cons e es ih =>
    intro cursor g
    cases h : strIndexFrom blob e.text cursor with
    | some p => simp [entityLoop, reconstructAux, entityLoopGiven, h, ih]
    | none => simp [entityLoop, reconstructAux, entityLoopGiven, h, ih]

/-- C1. PII overlap classifier: `is_pii` returns true iff some PII span
`(b, e)` satisfies `b ≤ s < e` or `b < s + len(text) ≤ e` or
`s ≤ b < s + len(text)`; in particular a candidate abutting a PII span on
either side is not flagged, and the spec's four test vectors for
`PII = [5, 10)` hold (candidate `[8,12)` true, `[10,15)` false, `[0,5)`
false, `[6,7)` true). -/
theorem pii_overlap_classifier_spec :
    (∀ (text : List Char) (pii : List (Nat × Nat)) (s : Nat),
      is_pii text pii s = true ↔
        ∃ be ∈ pii,
          (be.1 ≤ s ∧ s < be.2) ∨
          (be.1 < s + text.length ∧ s + text.length ≤ be.2) ∨
          (s ≤ be.1 ∧ be.1 < s + text.length))
    ∧ is_pii ['x','x','x','x'] [(5,10)] 8 = true
    ∧ is_pii ['x','x','x','x','x'] [(5,10)] 10 = false
    ∧ is_pii ['x','x','x','x','x'] [(5,10)] 0 = false
    ∧ is_pii ['x'] [(5,10)] 6 = true := by
  refine ⟨fun text pii s => ?_, by decide, by decide, by decide, by decide⟩
  simp [is_pii, List.any_eq_true]
  constructor
  · rintro ⟨a, b, hmem, h⟩
    exact ⟨a, b, hmem, by tauto⟩
  · rintro ⟨a, b, hmem, h⟩
    exact ⟨a, b, hmem, by tauto⟩

/-- Witness for C1: the general characterization applied at a concrete
input. -/
theorem pii_overlap_classifier_spec_witness :
    is_pii ['y','y'] [(2,4)] 3 = true :=
  (pii_overlap_classifier_spec.1 ['y','y'] [(2,4)] 3).mpr
    ⟨(2,4), by decide, by decide⟩

/-- C2. Offset reconstruction: `strIndexFrom` returns the first occurrence of
the annotation text at or after the cursor (or `none` when there is none up
to the blob's end); the reconstruction loop records that position and
advances the cursor past the match, or records the cursor without advancing
on failure; the source's entity loop flags entities at exactly these
reconstructed offsets; and for blob `"cat dog cat"` with annotations
`["cat", "cat"]` the reconstructed offsets are `[0, 8]`. -/
theorem offset_reconstruction_spec :
    (∀ (blob sub : List Char) (start p : Nat),
      strIndexFrom blob sub start = some p →
        start ≤ p ∧ p ≤ blob.length ∧ occursAt blob sub p = true ∧
          ∀ q, start ≤ q → q < p → occursAt blob sub q = false)
    ∧ (∀ (blob sub : List Char) (start : Nat),
      strIndexFrom blob sub start = none →
        ∀ q, start ≤ q → q ≤ blob.length → occursAt blob sub q = false)
    ∧ (∀ (blob t : List Char) (ts : List (List Char)) (cursor p : Nat),
      strIndexFrom blob t cursor = some p →
        reconstructAux blob (t :: ts) cursor = p :: reconstructAux blob ts (p + t.length))
    ∧ (∀ (blob t : List Char) (ts : List (List Char)) (cursor : Nat),
      strIndexFrom blob t cursor = none →
        reconstructAux blob (t :: ts) cursor = cursor :: reconstructAux blob ts cursor)
    ∧ (∀ (blob : List Char) (pii : List (Nat × Nat)) (es : List EntityR)
        (cursor : Nat) (g : Groups),
      entityLoop blob pii es cursor g =
        entityLoopGiven pii es (reconstructAux blob (es.map EntityR.text) cursor) g)
    ∧ reconstructOffsets "cat dog cat".toList ["cat".toList, "cat".toList] = [0, 8] := by
  refine ⟨?_, ?_, ?_, ?_, entityLoop_eq_given, by decide⟩
  · intro blob sub start p h
    unfold strIndexFrom at h
    by_cases hs : start ≤ blob.length
    · simp [hs] at h
      obtain ⟨h1, h2, h3, h4⟩ := strIndexGo_eq_some h
      exact ⟨h1, by omega, h3, fun q hq1 hq2 => h4 q hq1 hq2⟩
    · simp [hs] at h
  · intro blob sub start h q hq1 hq2
    unfold strIndexFrom at h
    by_cases hs : start ≤ blob.length
    · simp [hs] at h
      exact strIndexGo_eq_none h q hq1 (by omega)
    · omega
  · intro blob t ts cursor p h
    simp [reconstructAux, h]
  · intro blob t ts cursor h
    simp [reconstructAux, h]

/-- Witness for C2: the success-step equation applied at a concrete input. -/
theorem offset_reconstruction_spec_witness :
    reconstructAux "cat dog cat".toList ["cat".toList] 4 =
      8 :: reconstructAux "cat dog cat".toList [] (8 + "cat".toList.length) :=
  offset_reconstruction_spec.2.2.1 "cat dog cat".toList "cat".toList [] 4 8 (by decide)

/-- Counterexample to C3: for document blob `"aa bb"` with PII span `[0,2)`
and a detector-reported phrase `"bb"` at `BeginOffset` 0, the emitted
`Redacted` flag is `true` (the overlap test at the detector's offset), while
the overlap test at the offset produced by sequential-monotonic
reconstruction over the blob (which is 3) is `false`: the code uses the
detector's offset, not the reconstructed one. -/
theorem key_phrase_offset_cex :
    (topPhrasesOut [(0,2)] [⟨['b','b'], 1, 0⟩]).map OutPhrase.redacted = [true]
    ∧ reconstructOffsets ['a','a',' ','b','b'] [['b','b']] = [3]
    ∧ is_pii ['b','b'] [(0,2)] 3 = false := by
  refine ⟨by decide, by decide, by decide⟩

/-- C3 as amended: every phrase emitted for the document pool carries a
`Redacted` flag equal to the PII overlap test applied to the phrase's text at
the phrase's detector-reported `BeginOffset`, taken directly from the
detector's response (no offset reconstruction is performed for key
phrases). -/
theorem key_phrase_redaction_detector_offset :
    ∀ (pii : List (Nat × Nat)) (kps : List KeyPhraseR) (p : OutPhrase),
      p ∈ topPhrasesOut pii kps →
        ∃ src ∈ kps, p.phrase = src.text ∧ p.score = src.score ∧
          p.redacted = is_pii src.text pii src.beginOffset := by
  intro pii kps p hp
  unfold topPhrasesOut at hp
  obtain ⟨src, hsrc, rfl⟩ := List.mem_map.mp hp
  exact ⟨src, List.mem_of_mem_take hsrc, rfl, rfl, rfl⟩

/-- Witness for C3's amended theorem at a concrete input. -/
theorem key_phrase_redaction_detector_offset_witness :
    ∃ src ∈ [(⟨['z'], 1, 0⟩ : KeyPhraseR)],
      (⟨['z'], 1, false⟩ : OutPhrase).phrase = src.text ∧
        (⟨['z'], 1, false⟩ : OutPhrase).score = src.score ∧
        (⟨['z'], 1, false⟩ : OutPhrase).redacted = is_pii src.text [] src.beginOffset :=
  key_phrase_redaction_detector_offset [] [⟨['z'], 1, 0⟩] ⟨['z'], 1, false⟩ (by decide)

/-- Calls of the table pools: each call's pool comes from some table, PII
calls pass the pool unsliced, entity calls pass the first 5000 characters. -/
theorem tableCallsOf_spec :
    ∀ (tables : List (List (List (List Char)))) (call : ProviderCall),
      call ∈ tableCallsOf tables →
        (∃ rows ∈ tables, call.pool = tableTextOf rows) ∧
        ((call.kind = CallKind.pii ∧ call.arg = call.pool) ∨
          (call.kind = CallKind.entities ∧ call.arg = call.pool.take 5000)) := by
  intro tables
  induction tables with
  | nil => intro call h; simp [tableCallsOf] at h
  | cons rows rest ih =>
    intro call h
    unfold tableCallsOf at h
    rcases List.mem_append.mp h with h1 | h2
    · by_cases hb : isBlank (tableTextOf rows) = true
      · simp [hb] at h1
      · simp [hb] at h1
        rcases h1 with rfl | rfl
        · exact ⟨⟨rows, List.mem_cons_self rows rest, rfl⟩, Or.inl ⟨rfl, rfl⟩⟩
        · exact ⟨⟨rows, List.mem_cons_self rows rest, rfl⟩, Or.inr ⟨rfl, rfl⟩⟩
    · obtain ⟨⟨rws, hrws, hpool⟩, hk⟩ := ih call h2
      exact ⟨⟨rws, List.mem_cons_of_mem rows hrws, hpool⟩, hk⟩

/-- Counterexample to C4: for a document pool of 5001 characters, the first
call made is the PII-detection call and it receives the pool's text
untruncated — not the pool's text truncated to 5000. -/
theorem pii_call_truncation_cex :
    (callsMade ⟨[List.replicate 5001 'a'], [], []⟩).head? =
      some ⟨CallKind.pii, List.replicate 5001 'a', List.replicate 5001 'a'⟩
    ∧ List.replicate 5001 'a' ≠ (List.replicate 5001 'a').take 5000 := by
  constructor
  · rfl
  · intro h
    have := congrArg List.length h
    simp only [List.length_take, List.length_replicate] at this
    omega

/-- C4 as amended: every call made to the Text Insight Provider is for one of
the pools (document, forms, or one table); sentiment, key-phrase, and entity
detection receive the pool's text truncated to 5000 characters, while PII
detection receives the pool's text untruncated. -/
theorem insight_call_truncation_amended :
    ∀ (res : TextractResults) (call : ProviderCall), call ∈ callsMade res →
      (call.pool = docText res ∨ call.pool = formsTextOf res ∨
        ∃ rows ∈ res.tables, call.pool = tableTextOf rows)
      ∧ (call.kind = CallKind.pii → call.arg = call.pool)
      ∧ (call.kind ≠ CallKind.pii → call.arg = call.pool.take 5000) := by
  intro res call h
  unfold callsMade at h
  rcases List.mem_append.mp h with h1 | htab
  · rcases List.mem_append.mp h1 with hdoc | hforms
    · by_cases hb : isBlank (docText res) = true
      · simp [hb] at hdoc
      · simp [hb] at hdoc
        rcases hdoc with rfl | rfl | rfl
        · exact ⟨Or.inl rfl, fun _ => rfl, fun hne => absurd rfl hne⟩
        · exact ⟨Or.inl rfl, fun hk => by simp at hk, fun _ => rfl⟩
        · exact ⟨Or.inl rfl, fun hk => by simp at hk, fun _ => rfl⟩
    · by_cases hb : isBlank (formsTextOf res) = true
      · simp [hb] at hforms
      · simp [hb] at hforms
        rcases hforms with rfl | rfl
        · exact ⟨Or.inr (Or.inl rfl), fun _ => rfl, fun hne => absurd rfl hne⟩
        · exact ⟨Or.inr (Or.inl rfl), fun hk => by simp at hk, fun _ => rfl⟩
  · obtain ⟨⟨rws, hrws, hpool⟩, hk⟩ := tableCallsOf_spec res.tables call htab
    refine ⟨Or.inr (Or.inr ⟨rws, hrws, hpool⟩), ?_, ?_⟩
    · intro hp
      rcases hk with ⟨_, ha⟩ | ⟨hke, _⟩
      · exact ha
      · rw [hp] at hke; simp at hke
    · intro hne
      rcases hk with ⟨hkp, _⟩ | ⟨_, ha⟩
      · exact absurd hkp hne
      · exact ha

/-- Witness for C4's amended theorem at a concrete input: the sentiment call
of a one-line document. -/
theorem insight_call_truncation_amended_witness :
    ((⟨CallKind.sentiment, ['h','i'], ['h','i'].take 5000⟩ : ProviderCall).pool =
        docText ⟨[['h','i']], [], []⟩ ∨
      (⟨CallKind.sentiment, ['h','i'], ['h','i'].take 5000⟩ : ProviderCall).pool =
        formsTextOf ⟨[['h','i']], [], []⟩ ∨
      ∃ rows ∈ (⟨[['h','i']], [], []⟩ : TextractResults).tables,
        (⟨CallKind.sentiment, ['h','i'], ['h','i'].take 5000⟩ : ProviderCall).pool =
          tableTextOf rows)
    ∧ ((⟨CallKind.sentiment, ['h','i'], ['h','i'].take 5000⟩ : ProviderCall).kind =
          CallKind.pii →
        (⟨CallKind.sentiment, ['h','i'], ['h','i'].take 5000⟩ : ProviderCall).arg =
          (⟨CallKind.sentiment, ['h','i'], ['h','i'].take 5000⟩ : ProviderCall).pool)
    ∧ ((⟨CallKind.sentiment, ['h','i'], ['h','i'].take 5000⟩ : ProviderCall).kind ≠
          CallKind.pii →
        (⟨CallKind.sentiment, ['h','i'], ['h','i'].take 5000⟩ : ProviderCall).arg =
          (⟨CallKind.sentiment, ['h','i'], ['h','i'].take 5000⟩ : ProviderCall).pool.take 5000) :=
  insight_call_truncation_amended ⟨[['h','i']], [], []⟩
    ⟨CallKind.sentiment, ['h','i'], ['h','i'].take 5000⟩ (by decide)

/-- Counterexample to C5: if the detector returns two phrases with scores 1
then 2 in that order, the emitted `TopPhrases` scores are `[1, 2]`, which is
not in descending score order. -/
theorem top_phrases_ranking_cex :
    (topPhrasesOut [] [⟨['a'], 1, 0⟩, ⟨['b'], 2, 0⟩]).map OutPhrase.score = [1, 2]
    ∧ ¬ List.Sorted (fun a b : ℚ => b ≤ a) [(1 : ℚ), 2] := by
  constructor
  · decide
  · intro h
    have := List.rel_of_sorted_cons h 2 (by simp)
    norm_num at this

/-- C5 as amended: for every detector response, the emitted `TopPhrases`
list contains at most 10 phrases, namely the first 10 phrases in the
detector's original return order with their texts and scores passed through
unchanged (no re-ranking by score). -/
theorem top_phrases_first_ten :
    ∀ (pii : List (Nat × Nat)) (kps : List KeyPhraseR),
      (topPhrasesOut pii kps).length ≤ 10
      ∧ (topPhrasesOut pii kps).map OutPhrase.phrase = (kps.take 10).map KeyPhraseR.text
      ∧ (topPhrasesOut pii kps).map OutPhrase.score = (kps.take 10).map KeyPhraseR.score := by
  intro pii kps
  refine ⟨?_, ?_, ?_⟩
  · simp only [topPhrasesOut, List.length_map]
    exact List.length_take_le 10 kps
  · simp only [topPhrasesOut, List.map_map, List.map_take]
    rfl
  · simp only [topPhrasesOut, List.map_map, List.map_take]
    rfl

/-- C9. Confidence filtering is idempotent: filtering an already-filtered
block list yields the same list. -/
theorem confidence_filter_idempotent :
    ∀ blocks : List Block, confidenceFilter (confidenceFilter blocks) = confidenceFilter blocks := by
  intro blocks
  simp [confidenceFilter, List.filter_filter]

/-- When every relationship in the list has a non-empty id list, the
fallible first-id extraction succeeds and agrees with the skipping one. -/
theorem headsOf_eq_some :
    ∀ rels : List BlockRel, (∀ r ∈ rels, r.ids ≠ []) →
      headsOf rels = some (rels.filterMap fun r => r.ids.head?) := by
  intro rels
  induction rels with
  | nil => intro _; rfl
  | cons r rs ih =>
    intro h
    have hr : r.ids ≠ [] := h r (List.mem_cons_self r rs)
    cases hids : r.ids with
    | nil => exact absurd hids hr
    | cons i is =>
      unfold headsOf
      rw [hids, ih fun r' hr' => h r' (List.mem_cons_of_mem r hr')]
      simp [List.filterMap_cons, hids]

/-- C7. Form field emission: for a KEY_VALUE_SET block with role KEY in the
filtered list (whose VALUE relationships each carry exactly one target id,
the upstream invariant), the block's processing succeeds, and for every
filtered block that is a VALUE target, the (key text, value text) pair is
emitted iff both the joined child text of the key block and the joined child
text of the value block are non-empty after trimming. -/
theorem form_field_emission_iff :
    ∀ (filtered : List Block) (block : Block) (ets : List String),
      block.blockType = some "KEY_VALUE_SET" →
      block.entityTypes = some ets →
      "KEY" ∈ ets →
      (∀ r ∈ block.relationships, r.relType = "VALUE" → r.ids.length = 1) →
      ∃ pairs, processBlockE filtered block = .ok { formAdds := pairs } ∧
        ∀ vb ∈ filtered, vb.id ∈ valueTargets block →
          ((childText filtered block, childText filtered vb) ∈ pairs ↔
            (isBlank (childText filtered block) = false ∧
              isBlank (childText filtered vb) = false)) := by
  intro filtered block ets hbt hets hkey hval
  have h1 : ∀ r ∈ block.relationships.filter (fun r => r.relType = "VALUE"), r.ids ≠ [] := by
    intro r hr
    obtain ⟨hmem, hp⟩ := List.mem_filter.mp hr
    have hlen := hval r hmem (by simpa using hp)
    intro heq
    rw [heq] at hlen
    simp at hlen
  have hids : valueIds? block = some (valueTargets block) := by
    unfold valueIds? valueTargets
    exact headsOf_eq_some _ h1
  unfold processBlockE
  rw [hbt, hets]
  simp only [show ("KEY_VALUE_SET" = "LINE") = False by simp,
    show ("KEY_VALUE_SET" = "TABLE") = False by simp, if_false, if_pos rfl, if_pos hkey]
  by_cases hb : isBlank (childText filtered block) = true
  · rw [if_pos hb]
    refine ⟨[], rfl, fun vb _ _ => ?_⟩
    simp [hb]
  · rw [if_neg hb, hids]
    refine ⟨_, rfl, fun vb hvb hvid => ?_⟩
    constructor
    · intro hmem
      obtain ⟨b, hbmem, hbeq⟩ := List.mem_filterMap.mp hmem
      by_cases hbid : b.id ∈ valueTargets block
      · by_cases hbv : isBlank (childText filtered b) = true
        · rw [if_pos hbid, if_pos hbv] at hbeq
          exact absurd hbeq (by simp)
        · rw [if_pos hbid, if_neg hbv] at hbeq
          have hv2 : childText filtered b = childText filtered vb :=
            ((Prod.mk.injEq _ _ _ _).mp (Option.some.inj hbeq)).2
          rw [← hv2]
          exact ⟨Bool.eq_false_iff.mpr hb, Bool.eq_false_iff.mpr hbv⟩
      · rw [if_neg hbid] at hbeq
        exact absurd hbeq (by simp)
    · rintro ⟨-, hv⟩
      refine List.mem_filterMap.mpr ⟨vb, hvb, ?_⟩
      rw [if_pos hvid, if_neg (by simp [hv])]

/-- Witness for C7 at a concrete key/value pair (key text "N", value text
"J"). -/
theorem form_field_emission_iff_witness :
    ∃ pairs, processBlockE kvFiltered kvKeyBlock = .ok { formAdds := pairs } ∧
      ∀ vb ∈ kvFiltered, vb.id ∈ valueTargets kvKeyBlock →
        ((childText kvFiltered kvKeyBlock, childText kvFiltered vb) ∈ pairs ↔
          (isBlank (childText kvFiltered kvKeyBlock) = false ∧
            isBlank (childText kvFiltered vb) = false)) :=
  form_field_emission_iff kvFiltered kvKeyBlock ["KEY"] rfl rfl (by decide) (by decide)

/-- C8. Per-block error recovery: every block's processing either succeeds
with a contribution that is applied, or fails and leaves the accumulator
unchanged; a failing block anywhere in the fold contributes nothing while
every other block's contribution is unchanged; and the resolver is exactly
this recovering fold over the confidence-filtered list (total by
construction — it never raises). -/
theorem per_block_recovery :
    (∀ (filtered : List Block) (acc : Extracted) (b : Block),
      (∃ c, processBlockE filtered b = .ok c ∧
        processStep filtered acc b = applyContribution acc c)
      ∨ (processBlockE filtered b = .error () ∧ processStep filtered acc b = acc))
    ∧ (∀ (filtered : List Block) (init : Extracted) (pre post : List Block) (bad : Block),
      processBlockE filtered bad = .error () →
        (pre ++ bad :: post).foldl (processStep filtered) init =
          (pre ++ post).foldl (processStep filtered) init)
    ∧ (∀ blocks : List Block,
      process_textract_response blocks =
        (confidenceFilter blocks).foldl (processStep (confidenceFilter blocks)) ⟨[], [], []⟩) := by
  refine ⟨?_, ?_, fun _ => rfl⟩
  · intro f acc b
    cases h : processBlockE f b with
    | ok c => exact Or.inl ⟨c, rfl, by simp [processStep, h]⟩
    | error e => cases e; exact Or.inr ⟨rfl, by simp [processStep, h]⟩
  · intro f init pre post bad h
    have hstep : ∀ m : Extracted, processStep f m bad = m := fun m => by
      simp [processStep, h]
    rw [List.foldl_append, List.foldl_append, List.foldl_cons, hstep]

/-- Witness for C8: a KEY block whose VALUE relationship has an empty id
list raises inside its body; skipping it leaves the fold over the remaining
block unchanged. -/
theorem per_block_recovery_witness :
    ([recWordBlock] ++ recBadBlock :: []).foldl (processStep recFiltered) ⟨[], [], []⟩ =
      ([recWordBlock] ++ []).foldl (processStep recFiltered) ⟨[], [], []⟩ :=
  per_block_recovery.2.1 recFiltered ⟨[], [], []⟩ [recWordBlock] [] recBadBlock rfl

/-- C10. Per-pool failure policy: any error escaping the handler body is
re-raised wrapped with status code 500 and nothing is returned; a successful
return carries status 200 and exactly the body's insights; and concretely,
when the document pool's calls all succeed but entity detection fails on a
table pool, the handler returns no result at all — the document pool's
enrichment is discarded (fail-whole-request, not skip-and-continue). -/
theorem enrichment_fail_whole_request :
    (∀ (c : Providers) (jobId : String) (res : TextractResults) (e : String),
      handlerBody c res = .error e →
        comprehendHandler c jobId res = .error ⟨500, e⟩)
    ∧ (∀ (c : Providers) (jobId : String) (res : TextractResults) (out : HandlerOk),
      comprehendHandler c jobId res = .ok out →
        out.statusCode = 200 ∧ out.textract_job_id = jobId ∧
          handlerBody c res = .ok out.insights)
    ∧ comprehendHandler
        ⟨fun _ => .ok [], fun _ => .ok ⟨"NEUTRAL", []⟩, fun _ => .ok [],
          fun _ => .error "boom"⟩
        "job" ⟨[['h','i']], [], [[[['x']]]]⟩ =
      .error ⟨500, "boom"⟩ := by
  refine ⟨?_, ?_, rfl⟩
  · intro c jobId res e h
    unfold comprehendHandler
    rw [h]
  · intro c jobId res out h
    unfold comprehendHandler at h
    cases hb : handlerBody c res with
    | ok ins =>
      rw [hb] at h
      have := Except.ok.inj h
      rw [← this]
      exact ⟨rfl, rfl, rfl⟩
    | error e =>
      rw [hb] at h
      exact absurd h (by simp)

/-- Witness for C10: the wrapping rule applied to providers whose PII
detection fails immediately. -/
theorem enrichment_fail_whole_request_witness :
    comprehendHandler
        ⟨fun _ => .error "x", fun _ => .error "x", fun _ => .error "x",
          fun _ => .error "x"⟩
        "j" ⟨[['a']], [], []⟩ =
      .error ⟨500, "x"⟩ :=
  enrichment_fail_whole_request.1
    ⟨fun _ => .error "x", fun _ => .error "x", fun _ => .error "x", fun _ => .error "x"⟩
    "j" ⟨[['a']], [], []⟩ "x" rfl

/-! ### Helper lemmas: the association-list dict model -/

theorem dictGet?_nil {α : Type} (k : Nat) : dictGet? k ([] : List (Nat × α)) = none := rfl

theorem dictGet?_cons {α : Type} (k k' : Nat) (v' : α) (l : List (Nat × α)) :
    dictGet? k ((k', v') :: l) = if k' = k then some v' else dictGet? k l := by
  by_cases h : k' = k
  · simp [dictGet?, List.find?_cons_of_pos, h]
  · rw [if_neg h]
    unfold dictGet?
    rw [List.find?_cons_of_neg]
    simp [h]

theorem dictGet?_dictSet_self {α : Type} (k : Nat) (v : α) (d : List (Nat × α)) :
    dictGet? k (dictSet k v d) = some v := by
  induction d with
  | nil => simp [dictSet, dictGet?_cons]
  | cons p rest ih =>
    obtain ⟨k', v'⟩ := p
    by_cases h : k' = k
    · subst h
      simp [dictSet, dictGet?_cons]
    · simp only [dictSet, if_neg h]
      rw [dictGet?_cons, if_neg h]
      exact ih

theorem dictGet?_dictSet_ne {α : Type} (r k : Nat) (v : α) (d : List (Nat × α))
    (h : r ≠ k) : dictGet? r (dictSet k v d) = dictGet? r d := by
  induction d with
  | nil =>
    rw [show dictSet k v ([] : List (Nat × α)) = [(k, v)] from rfl, dictGet?_cons,
      if_neg fun he => h he.symm]
  | cons p rest ih =>
    obtain ⟨k', v'⟩ := p
    by_cases hk : k' = k
    · subst hk
      rw [dictSet, if_pos rfl, dictGet?_cons, dictGet?_cons,
        if_neg fun he => h he.symm, if_neg fun he => h he.symm]
    · rw [dictSet, if_neg hk, dictGet?_cons, dictGet?_cons]
      by_cases hr : k' = r
      · rw [if_pos hr, if_pos hr]
      · rw [if_neg hr, if_neg hr, ih]

theorem mem_dictKeys_dictSet {α : Type} (m k : Nat) (v : α) (d : List (Nat × α)) :
    m ∈ dictKeys (dictSet k v d) ↔ m = k ∨ m ∈ dictKeys d := by
  induction d with
  | nil => simp [dictSet, dictKeys]
  | cons p rest ih =>
    obtain ⟨k', v'⟩ := p
    by_cases h : k' = k
    · subst h
      rw [dictSet, if_pos rfl]
      simp only [dictKeys, List.map_cons, List.mem_cons]
      tauto
    · rw [dictSet, if_neg h]
      simp only [dictKeys, List.map_cons, List.mem_cons]
      rw [show List.map Prod.fst (dictSet k v rest) = dictKeys (dictSet k v rest) from rfl, ih]
      simp only [dictKeys]
      tauto

theorem nodup_dictKeys_dictSet {α : Type} (k : Nat) (v : α) (d : List (Nat × α))
    (h : (dictKeys d).Nodup) : (dictKeys (dictSet k v d)).Nodup := by
  induction d with
  | nil => simp [dictSet, dictKeys]
  | cons p rest ih =>
    obtain ⟨k', v'⟩ := p
    simp only [dictKeys, List.map_cons, List.nodup_cons] at h
    obtain ⟨hk', hrest⟩ := h
    by_cases hk : k' = k
    · subst hk
      rw [dictSet, if_pos rfl]
      simp only [dictKeys, List.map_cons, List.nodup_cons]
      exact ⟨hk', hrest⟩
    · rw [dictSet, if_neg hk]
      simp only [dictKeys, List.map_cons, List.nodup_cons]
      refine ⟨?_, ih hrest⟩
      intro hmem
      rcases (mem_dictKeys_dictSet k' k v rest).mp hmem with he | hm
      · exact hk he
      · exact hk' hm

theorem dictGet?_innerFold (c : Nat) :
    ∀ (ps : List (Nat × List Char)) (d0 : List (Nat × List Char)),
      dictGet? c (innerFold ps d0) =
        match (ps.filter fun p => p.1 = c).getLast? with
        | some p => some p.2
        | none => dictGet? c d0 := by
  intro ps
  induction ps with
  | nil => intro d0; rfl
  | cons p rest ih =>
    intro d0
    rw [show innerFold (p :: rest) d0 = innerFold rest (dictSet p.1 p.2 d0) from rfl, ih]
    by_cases hc : p.1 = c
    · rw [List.filter_cons_of_pos (by simp [hc])]
      cases hfr : (rest.filter fun q => q.1 = c) with
      | nil =>
        rw [hc, dictGet?_dictSet_self]
        rfl
      | cons b l =>
        rw [List.getLast?_cons_cons]
        rfl
    · rw [List.filter_cons_of_neg (by simp [hc])]
      cases hfr : (rest.filter fun q => q.1 = c) with
      | nil =>
        exact dictGet?_dictSet_ne c p.1 p.2 d0 fun he => hc he.symm
      | cons b l => rfl

theorem mem_dictKeys_innerFold (c : Nat) :
    ∀ (ps : List (Nat × List Char)) (d0 : List (Nat × List Char)),
      c ∈ dictKeys (innerFold ps d0) ↔ c ∈ ps.map Prod.fst ∨ c ∈ dictKeys d0 := by
  intro ps
  induction ps with
  | nil => intro d0; simp [innerFold]
  | cons p rest ih =>
    intro d0
    rw [show innerFold (p :: rest) d0 = innerFold rest (dictSet p.1 p.2 d0) from rfl, ih,
      mem_dictKeys_dictSet]
    simp only [List.map_cons, List.mem_cons]
    tauto

theorem nodup_dictKeys_innerFold :
    ∀ (ps : List (Nat × List Char)) (d0 : List (Nat × List Char)),
      (dictKeys d0).Nodup → (dictKeys (innerFold ps d0)).Nodup := by
  intro ps
  induction ps with
  | nil => intro d0 h; exact h
  | cons p rest ih =>
    intro d0 h
    exact ih (dictSet p.1 p.2 d0) (nodup_dictKeys_dictSet p.1 p.2 d0 h)

theorem survCells_cons (filtered : List Block) (c : Block) (cells : List Block) :
    survCells filtered (c :: cells) =
      if isBlank (childText filtered c) = true then survCells filtered cells
      else c :: survCells filtered cells := by
  by_cases h : isBlank (childText filtered c) = true
  · rw [if_pos h]
    unfold survCells
    rw [List.filter_cons_of_neg (by simp [h])]
  · rw [if_neg h]
    unfold survCells
    rw [List.filter_cons_of_pos (by simp [Bool.eq_false_iff.mpr h])]

theorem rowPairs_cons (filtered : List Block) (c : Block) (cells : List Block) (r : Nat) :
    rowPairs filtered (c :: cells) r =
      if isBlank (childText filtered c) = true then rowPairs filtered cells r
      else if rowIdx c = r then
        (colIdx c, childText filtered c) :: rowPairs filtered cells r
      else rowPairs filtered cells r := by
  unfold rowPairs
  rw [survCells_cons]
  by_cases hb : isBlank (childText filtered c) = true
  · rw [if_pos hb, if_pos hb]
  · rw [if_neg hb, if_neg hb]
    by_cases hr : rowIdx c = r
    · rw [if_pos hr, List.filter_cons_of_pos (by simp [hr]), List.map_cons]
    · rw [if_neg hr, List.filter_cons_of_neg (by simp [hr])]

theorem buildFold_get (filtered : List Block) :
    ∀ (cells : List Block) (rd : List (Nat × List (Nat × List Char))) (r : Nat),
      dictGet? r (cells.foldl (buildStep filtered) rd) =
        if rowPairs filtered cells r = [] then dictGet? r rd
        else some (innerFold (rowPairs filtered cells r) ((dictGet? r rd).getD [])) := by
  intro cells
  induction cells with
  | nil =>
    intro rd r
    rw [List.foldl_nil, if_pos (show rowPairs filtered [] r = [] from rfl)]
  | cons cell cells ih =>
    intro rd r
    rw [List.foldl_cons, rowPairs_cons]
    by_cases hb : isBlank (childText filtered cell) = true
    · rw [if_pos hb,
        show buildStep filtered rd cell = rd from by unfold buildStep; rw [if_pos hb]]
      exact ih rd r
    · rw [if_neg hb,
        show buildStep filtered rd cell =
          dictSet (rowIdx cell)
            (dictSet (colIdx cell) (childText filtered cell)
              ((dictGet? (rowIdx cell) rd).getD [])) rd
          from by unfold buildStep; rw [if_neg hb]]
      by_cases hr : rowIdx cell = r
      · subst hr
        rw [if_pos (show rowIdx cell = rowIdx cell from rfl),
          if_neg (List.cons_ne_nil _ _), ih _ (rowIdx cell), dictGet?_dictSet_self]
        by_cases hps : rowPairs filtered cells (rowIdx cell) = []
        · rw [if_pos hps, hps]
          rfl
        · rw [if_neg hps]
          rfl
      · rw [if_neg hr, ih _ r,
          dictGet?_dictSet_ne r (rowIdx cell) _ rd fun he => hr he.symm]

theorem buildFold_mem_keys (filtered : List Block) :
    ∀ (cells : List Block) (rd : List (Nat × List (Nat × List Char))) (r : Nat),
      r ∈ dictKeys (cells.foldl (buildStep filtered) rd) ↔
        (∃ c ∈ survCells filtered cells, rowIdx c = r) ∨ r ∈ dictKeys rd := by
  intro cells
  induction cells with
  | nil =>
    intro rd r
    simp [survCells]
  | cons cell cells ih =>
    intro rd r
    rw [List.foldl_cons, survCells_cons]
    by_cases hb : isBlank (childText filtered cell) = true
    · rw [if_pos hb,
        show buildStep filtered rd cell = rd from by unfold buildStep; rw [if_pos hb]]
      exact ih rd r
    · rw [if_neg hb,
        show buildStep filtered rd cell =
          dictSet (rowIdx cell)
            (dictSet (colIdx cell) (childText filtered cell)
              ((dictGet? (rowIdx cell) rd).getD [])) rd
          from by unfold buildStep; rw [if_neg hb]]
      rw [ih _ r, mem_dictKeys_dictSet]
      simp only [List.mem_cons]
      constructor
      · rintro (⟨c, hc, hcr⟩ | (he | hm))
        · exact Or.inl ⟨c, Or.inr hc, hcr⟩
        · exact Or.inl ⟨cell, Or.inl rfl, he.symm⟩
        · exact Or.inr hm
      · rintro (⟨c, (rfl | hc), hcr⟩ | hm)
        · exact Or.inr (Or.inl hcr.symm)
        · exact Or.inl ⟨c, hc, hcr⟩
        · exact Or.inr (Or.inr hm)

theorem buildFold_nodup_keys (filtered : List Block) :
    ∀ (cells : List Block) (rd : List (Nat × List (Nat × List Char))),
      (dictKeys rd).Nodup → (dictKeys (cells.foldl (buildStep filtered) rd)).Nodup := by
  intro cells
  induction cells with
  | nil => intro rd h; exact h
  | cons cell cells ih =>
    intro rd h
    rw [List.foldl_cons]
    unfold buildStep
    by_cases hb : isBlank (childText filtered cell) = true
    · rw [if_pos hb]
      exact ih rd h
    · rw [if_neg hb]
      exact ih _ (nodup_dictKeys_dictSet _ _ rd h)

theorem sortNat_perm (l : List Nat) : List.Perm (sortNat l) l :=
  List.perm_insertionSort _ l

theorem sortNat_sorted (l : List Nat) : List.Sorted (· ≤ ·) (sortNat l) :=
  List.sorted_insertionSort _ l

theorem sortNat_mem (l : List Nat) (x : Nat) : x ∈ sortNat l ↔ x ∈ l :=
  (sortNat_perm l).mem_iff

theorem sortNat_nodup (l : List Nat) (h : l.Nodup) : (sortNat l).Nodup :=
  ((sortNat_perm l).nodup_iff).mpr h

theorem sortNat_eq_of_mem_iff (l₁ l₂ : List Nat) (h₁ : l₁.Nodup) (h₂ : l₂.Nodup)
    (h : ∀ x, x ∈ l₁ ↔ x ∈ l₂) : sortNat l₁ = sortNat l₂ := by
  have hp : List.Perm l₁ l₂ := (List.perm_ext_iff_of_nodup h₁ h₂).mpr h
  exact List.eq_of_perm_of_sorted
    ((sortNat_perm l₁).trans (hp.trans (sortNat_perm l₂).symm))
    (sortNat_sorted l₁) (sortNat_sorted l₂)

theorem rows_eq_spec_cells (filtered : List Block) (cells : List Block) :
    (sortNat (dictKeys (buildRowData filtered cells))).map (fun r =>
      (sortNat (dictKeys ((dictGet? r (buildRowData filtered cells)).getD []))).map
        (fun c => (dictGet? c ((dictGet? r (buildRowData filtered cells)).getD [])).getD [])) =
    (sortNat (((survCells filtered cells).map rowIdx).dedup)).map (fun r =>
      (sortNat ((((survCells filtered cells).filter fun cell => rowIdx cell = r).map
          colIdx).dedup)).map
        (fun c =>
          ((((survCells filtered cells).filter fun cell => rowIdx cell = r).filter
              fun cell => colIdx cell = c).getLast?.map (childText filtered)).getD [])) := by
  have hbrd : buildRowData filtered cells = cells.foldl (buildStep filtered) [] := rfl
  have hkeys : sortNat (dictKeys (buildRowData filtered cells)) =
      sortNat (((survCells filtered cells).map rowIdx).dedup) := by
    apply sortNat_eq_of_mem_iff
    · rw [hbrd]
      exact buildFold_nodup_keys filtered cells [] (by simp [dictKeys])
    · exact List.nodup_dedup _
    · intro x
      rw [hbrd, buildFold_mem_keys]
      simp [dictKeys, List.mem_dedup, List.mem_map]
  rw [hkeys]
  refine congrArg
    (fun f => List.map f (sortNat (((survCells filtered cells).map rowIdx).dedup)))
    (funext fun r => ?_)
  have hget := buildFold_get filtered cells [] r
  rw [← hbrd] at hget
  by_cases hps : rowPairs filtered cells r = []
  · rw [if_pos hps] at hget
    have hrc : (survCells filtered cells).filter (fun cell => rowIdx cell = r) = [] := by
      have h2 := hps
      unfold rowPairs at h2
      exact List.map_eq_nil_iff.mp h2
    rw [hget, hrc]
    rfl
  · rw [if_neg hps] at hget
    have hget2 : dictGet? r (buildRowData filtered cells) =
        some (innerFold (rowPairs filtered cells r) []) := hget
    rw [hget2]
    simp only [Option.getD_some]
    have hcols : sortNat (dictKeys (innerFold (rowPairs filtered cells r) [])) =
        sortNat ((((survCells filtered cells).filter fun cell => rowIdx cell = r).map
          colIdx).dedup) := by
      apply sortNat_eq_of_mem_iff
      · exact nodup_dictKeys_innerFold _ [] (by simp [dictKeys])
      · exact List.nodup_dedup _
      · intro c
        rw [mem_dictKeys_innerFold]
        simp [dictKeys, List.mem_dedup, rowPairs, List.map_map, Function.comp]
    rw [hcols]
    refine congrArg (fun f => List.map f _) (funext fun c => ?_)
    rw [dictGet?_innerFold]
    have hfilt : (rowPairs filtered cells r).filter (fun p => p.1 = c) =
        (((survCells filtered cells).filter fun cell => rowIdx cell = r).filter
          fun cell => colIdx cell = c).map
            (fun cell => (colIdx cell, childText filtered cell)) := by
      unfold rowPairs
      rw [List.filter_map]
      congr 1
    rw [hfilt, List.getLast?_map]
    cases hlast : (((survCells filtered cells).filter fun cell => rowIdx cell = r).filter
        fun cell => colIdx cell = c).getLast? with
    | none => rfl
    | some cell => rfl

theorem tableRows_eq_specGrid (filtered : List Block) (block : Block) :
    tableRows filtered block = specGrid filtered block :=
  rows_eq_spec_cells filtered (get_child_blocks block filtered)

/-- Counterexample to C6: a cell whose children are a WORD `"a"` and a
text-less SELECTION_ELEMENT resolves to the cell text `"a "` — the untrimmed
join of ALL child texts — while the claim's "single-space join of its child
WORD texts, trimmed" is `"a"`. -/
theorem table_cell_text_cex :
    (process_textract_response tblBlocks).tables = [[[['a', ' ']]]]
    ∧ specCellTextClaim (confidenceFilter tblBlocks) tblCell = ['a']
    ∧ (['a', ' '] : List Char) ≠ ['a'] := by
  refine ⟨by decide, by decide, by decide⟩

/-- C6 as amended: for every TABLE block in the filtered list, the resolved
grid equals the spec-side description — rows for the ascending sorted
distinct row indices of the surviving cells, each row the values at its own
ascending sorted distinct column indices, the value at a coordinate being
the joined child text of the last surviving cell there; a cell's text is the
single-space join of ALL its child blocks' texts (missing text as the empty
string), NOT trimmed; cells whose joined text is blank contribute nothing
(`survCells`); the sort really is an ascending, membership-preserving,
duplicate-free ordering; and a TABLE block contributes its grid iff the grid
has at least one row (a table with zero non-empty rows is dropped). -/
theorem table_grid_resolution_amended :
    (∀ (filtered : List Block) (block : Block),
      tableRows filtered block = specGrid filtered block)
    ∧ (∀ l : List Nat,
        List.Sorted (· ≤ ·) (sortNat l) ∧ (∀ x, x ∈ sortNat l ↔ x ∈ l) ∧
          (l.Nodup → (sortNat l).Nodup))
    ∧ (∀ (filtered : List Block) (block : Block),
        block.blockType = some "TABLE" →
          processBlockE filtered block =
            .ok { tableAdds :=
                    if tableRows filtered block = [] then []
                    else [tableRows filtered block] }) := by
  refine ⟨tableRows_eq_specGrid,
    fun l => ⟨sortNat_sorted l, sortNat_mem l, sortNat_nodup l⟩, ?_⟩
  intro filtered block hbt
  unfold processBlockE
  rw [hbt]
  rfl

/-- Witness for C6's amended theorem at the concrete table block. -/
theorem table_grid_resolution_amended_witness :
    processBlockE tblBlocks tblBlock =
      .ok { tableAdds :=
              if tableRows tblBlocks tblBlock = [] then []
              else [tableRows tblBlocks tblBlock] } :=
  table_grid_resolution_amended.2.2 tblBlocks tblBlock rfl
